import Mathlib

/-!
Shallow embedding of `src/wiretuird/main.py` — a terminal front-end that
reconciles WireGuard configuration files on disk against the interfaces
currently active in the kernel.

External process invocations (`subprocess.run(..., capture_output=True,
text=True, check=False)`) are modelled by passing the process outcome
(`ProcResult`) as an explicit argument; each Python function that consumes
such an outcome becomes a pure Lean function of that argument.  Python
strings are Lean `String`s (sequences of code points, matching Python's
`str` semantics for slicing, `endswith`, `strip`, `split`, `splitlines`).
-/

/-- Outcome of one external process invocation: exit code plus the captured
output and error streams. -/
structure ProcResult where
  returncode : Int
  stdout : String
  stderr : String

/-- Whitespace as recognised by Python's `str.strip()` and `str.split()`
(space, tab, newline, carriage return, vertical tab, form feed). -/
def isPySpace (c : Char) : Bool :=
  c = ' ' || c = '\t' || c = '\n' || c = '\x0d' || c = '\x0b' || c = '\x0c'

/-- Python `str.strip()`: remove leading and trailing whitespace. -/
def pyStrip (s : String) : String :=
  ⟨((s.data.dropWhile isPySpace).reverse.dropWhile isPySpace).reverse⟩

/-- Helper for `pySplit`: walk the characters, accumulating the current
(reversed) word; whitespace ends a word, and empty words are never produced. -/
def pySplitAux : List Char → List Char → List String
  | [], acc => if acc.isEmpty then [] else [⟨acc.reverse⟩]
  | c :: rest, acc =>
    if isPySpace c then
      if acc.isEmpty then pySplitAux rest []
      else ⟨acc.reverse⟩ :: pySplitAux rest []
    else pySplitAux rest (c :: acc)

/-- Python `str.split()` with no separator: split on runs of whitespace,
discarding empty pieces. -/
def pySplit (s : String) : List String := pySplitAux s.data []

/-- Helper for `pySplitLines`: each newline or carriage-return character ends
a line.  (Python's `splitlines` treats `\x0d\x0a` as a single terminator;
this model yields an extra empty line there, which every caller in the
program filters out, so the difference is unobservable.) -/
def pySplitLinesAux : List Char → List Char → List String
  | [], acc => if acc.isEmpty then [] else [⟨acc.reverse⟩]
  | c :: rest, acc =>
    if c = '\n' || c = '\x0d' then ⟨acc.reverse⟩ :: pySplitLinesAux rest []
    else pySplitLinesAux rest (c :: acc)

/-- Python `str.splitlines()` (up to empty lines, see `pySplitLinesAux`). -/
def pySplitLines (s : String) : List String := pySplitLinesAux s.data []

/-- Lexicographic code-point comparison of character lists: exactly the
order Python's `sorted` uses on `str`. -/
def charListLe : List Char → List Char → Bool
  | [], _ => true
  | _ :: _, [] => false
  | a :: as, b :: bs => if a < b then true else if b < a then false else charListLe as bs

/-- Python's case-sensitive ordinal string order, as a proposition. -/
def strLe (a b : String) : Prop := charListLe a.data b.data = true

instance : DecidableRel strLe := fun a b =>
  if h : charListLe a.data b.data = true then .isTrue h else .isFalse h

/-- The characters of `".conf"` reversed — the suffix tested by
`file_name.endswith(".conf")`. -/
def confSuffixRev : List Char := ['f', 'n', 'o', 'c', '.']

/-- Python `s.endswith(".conf")`: the last five characters of `s` are
`.conf`. -/
def endsWithConf (s : String) : Bool :=
  decide (s.data.reverse.take 5 = confSuffixRev)

/-- Python truthiness helper for strings: `a or b` returns `a` when `a` is
non-empty, else `b`. -/
def pyOr (a b : String) : String := if a ≠ "" then a else b

/-- The `ConfigItem` dataclass: one discovered configuration file, its derived
interface name, and whether that interface is currently active. -/
structure ConfigItem where
  file_name : String
  interface : String
  active : Bool
deriving DecidableEq

/-- The interface name derived from a configuration file name in
`build_config_items`: `file_name[:-5] if file_name.endswith(".conf") else
file_name`. -/
def identifierOf (file_name : String) : String :=
  if endsWithConf file_name then ⟨file_name.data.take (file_name.data.length - 5)⟩
  else file_name

/-- `get_active_interfaces`: on failure return the empty set; on success the
whitespace-separated non-empty tokens of stdout, as a set (modelled as a
deduplicated list). -/
def get_active_interfaces (r : ProcResult) : List String :=
  if r.returncode ≠ 0 then []
  else (((pySplit (pyStrip r.stdout)).filter (fun name => name ≠ "")).dedup)

/-- `_with_privileges`: run the command directly when the effective uid is 0,
otherwise prefix it with `sudo -n`. -/
def with_privileges (euid : Nat) (command : List String) : List String :=
  if euid = 0 then command else "sudo" :: "-n" :: command

/-- `str(WIREGUARD_DIR)`. -/
def WIREGUARD_DIR : String := "/etc/wireguard"

/-- The command built by `list_wireguard_configs`. -/
def list_wireguard_configs_cmd (euid : Nat) : List String :=
  with_privileges euid ["ls", WIREGUARD_DIR]

/-- The command run by `get_active_interfaces` — built without
`_with_privileges`. -/
def get_active_interfaces_cmd : List String := ["wg", "show", "interfaces"]

/-- The command built by `run_wg_quick`. -/
def run_wg_quick_cmd (euid : Nat) (action interface : String) : List String :=
  with_privileges euid ["wg-quick", action, interface]

/-- `list_wireguard_configs`: on failure the empty list; on success the
sorted set of stripped stdout lines that are non-empty and end in `.conf`. -/
def list_wireguard_configs (r : ProcResult) : List String :=
  if r.returncode ≠ 0 then []
  else
    List.insertionSort strLe
      ((((pySplitLines r.stdout).map pyStrip).filter
        (fun line => line ≠ "" && endsWithConf line)).dedup)

/-- `build_config_items`, parameterised by the discovered file names and the
active-interface set it consumes. -/
def build_config_items (names : List String) (active_interfaces : List String) :
    List ConfigItem :=
  names.map fun file_name =>
    { file_name := file_name
      interface := identifierOf file_name
      active := active_interfaces.contains (identifierOf file_name) }

/-- `run_wg_quick`, parameterised by the outcome of the `wg-quick` process:
on exit code 0 a success tuple naming the interface and action, otherwise a
failure tuple whose message prefers stripped stderr, then stripped stdout,
then the `Unknown error` sentinel. -/
def run_wg_quick (action interface : String) (r : ProcResult) : Bool × String :=
  if r.returncode = 0 then
    (true, "Interface \x27" ++ interface ++ "\x27 " ++ action ++ " succeeded.")
  else
    (false, "wg-quick " ++ action ++ " failed: "
      ++ pyOr (pyStrip r.stderr) (pyOr (pyStrip r.stdout) "Unknown error"))

/-- The first row index whose item is active: the `enumerate` loop of
`refresh_table` computing `active_row`. -/
def firstActiveIdx : List ConfigItem → Option Nat
  | [] => none
  | item :: rest =>
    if item.active then some 0 else (firstActiveIdx rest).map (· + 1)

/-- Python `list.index`: index of the first occurrence (callers guard with a
membership test, so the out-of-range value for a missing element is never
used). -/
def indexOfStr (x : String) : List String → Nat
  | [] => 0
  | y :: rest => if y = x then 0 else indexOfStr x rest + 1

/-- The view produced by one `refresh_table` pass: the table rows and the
selection it leaves behind in `selected_interface`. -/
structure ReconciledView where
  entries : List ConfigItem
  selectedIdentifier : Option String
deriving DecidableEq

/-- The `target_row` computation of `refresh_table`.  Note the guard
`previous and previous in self.row_interfaces` uses Python truthiness, so an
empty-string previous selection is treated like `None`. -/
def target_row (items : List ConfigItem) (previous : Option String) : Option Nat :=
  match firstActiveIdx items with
  | some i => some i
  | none =>
    match previous with
    | some p =>
      if p ≠ "" ∧ p ∈ items.map ConfigItem.interface then
        some (indexOfStr p (items.map ConfigItem.interface))
      else if items.map ConfigItem.interface = [] then none else some 0
    | none => if items.map ConfigItem.interface = [] then none else some 0

/-- The items a reconciliation pass builds: `build_config_items` over the
discovered set `D` as `list_wireguard_configs` delivers it — deduplicated
and sorted. -/
def reconciledItems (D A : List String) : List ConfigItem :=
  build_config_items (List.insertionSort strLe D.dedup) A

/-- One reconciliation pass: `refresh_table` applied to the discovered names
`D`, the active identifiers `A`, and the remembered selection `previous`
(`self.selected_interface`).  The selected identifier is
`row_interfaces[target_row]` when a target row exists. -/
def reconcile (D A : List String) (previous : Option String) : ReconciledView :=
  { entries := reconciledItems D A
    selectedIdentifier :=
      (target_row (reconciledItems D A) previous).map
        (fun i => ((reconciledItems D A).map ConfigItem.interface).getD i "") }

/-- The selection rule exactly as the specification words it (for comparison
with `reconcile`): (a) the first sorted-order identifier in the intersection
of the current identifiers with `A`; (b) else `previousSelection` when it is
a current identifier; (c) else the first identifier in sorted order; (d) else
none. -/
def claimSelection (D A : List String) (previous : Option String) : Option String :=
  match ((List.insertionSort strLe D.dedup).map identifierOf).find?
      (fun id => A.contains id) with
  | some id => some id
  | none =>
    match previous with
    | some p =>
      if ((List.insertionSort strLe D.dedup).map identifierOf).contains p then some p
      else ((List.insertionSort strLe D.dedup).map identifierOf).head?
    | none => ((List.insertionSort strLe D.dedup).map identifierOf).head?

/-- Substring containment (Python's `in` on strings): the data of `sub` is an
infix of the data of `s`. -/
def strContains (s sub : String) : Prop := sub.data <:+: s.data

/-- Closed form of the selection `refresh_table` computes, phrased directly
over the sorted identifier list: the first identifier that is active, else a
non-empty remembered identifier still present, else the head of the list.
`reconcile_selected` proves `reconcile` computes exactly this. -/
def selFromIds (ids A : List String) (previous : Option String) : Option String :=
  match ids.find? (fun id => A.contains id) with
  | some id => some id
  | none =>
    match previous with
    | some p => if p ≠ "" ∧ p ∈ ids then some p else ids.head?
    | none => ids.head?

/-! Helper lemmas about the embedded definitions. -/

theorem charListLe_total : ∀ as bs : List Char,
    charListLe as bs = true ∨ charListLe bs as = true
  | [], _ => Or.inl rfl
  | _ :: _, [] => Or.inr rfl
  | a :: as, b :: bs => by
    rcases lt_trichotomy a b with h | h | h
    · left; simp [charListLe, h]
    · subst h
      rcases charListLe_total as bs with ih | ih
      · left; simp [charListLe, lt_irrefl, ih]
      · right; simp [charListLe, lt_irrefl, ih]
    · right; simp [charListLe, h]

theorem charListLe_trans : ∀ as bs cs : List Char,
    charListLe as bs = true → charListLe bs cs = true → charListLe as cs = true
  | [], _, _, _, _ => rfl
  | _ :: _, [], _, h1, _ => by simp [charListLe] at h1
  | _ :: _, _ :: _, [], _, h2 => by simp [charListLe] at h2
  | a :: as, b :: bs, c :: cs, h1, h2 => by
    simp only [charListLe] at h1 h2 ⊢
    by_cases hab : a < b
    · by_cases hbc : b < c
      · simp [lt_trans hab hbc]
      · by_cases hcb : c < b
        · rw [if_neg hbc, if_pos hcb] at h2; cases h2
        · have : b = c := le_antisymm (not_lt.mp hcb) (not_lt.mp hbc)
          subst this; simp [hab]
    · by_cases hba : b < a
      · rw [if_neg hab, if_pos hba] at h1; cases h1
      · have : a = b := le_antisymm (not_lt.mp hba) (not_lt.mp hab)
        subst this
        rw [if_neg hab, if_neg hba] at h1
        by_cases hbc : a < c
        · simp [hbc]
        · by_cases hcb : c < a
          · rw [if_neg hbc, if_pos hcb] at h2; cases h2
          · have : a = c := le_antisymm (not_lt.mp hcb) (not_lt.mp hbc)
            subst this
            rw [if_neg hbc, if_neg hcb] at h2 ⊢
            exact charListLe_trans as bs cs h1 h2

instance : IsTotal String strLe := ⟨fun a b => charListLe_total a.data b.data⟩

instance : IsTrans String strLe := ⟨fun a b c h1 h2 => charListLe_trans a.data b.data c.data h1 h2⟩

theorem build_map_file_name (names A : List String) :
    (build_config_items names A).map ConfigItem.file_name = names := by
  induction names with
  | nil => rfl
  | cons n rest ih => simp only [build_config_items, List.map_cons] at ih ⊢; rw [ih]

theorem build_map_interface (names A : List String) :
    (build_config_items names A).map ConfigItem.interface = names.map identifierOf := by
  simp [build_config_items, List.map_map]

theorem firstActive_find? (names A : List String) :
    (firstActiveIdx (build_config_items names A)).map
      (fun i => (names.map identifierOf).getD i "") =
    (names.map identifierOf).find? (fun id => A.contains id) := by
  induction names with
  | nil => rfl
  | cons n rest ih =>
    by_cases h : identifierOf n ∈ A
    · simp [build_config_items, firstActiveIdx, h]
    · simp only [build_config_items, List.map_cons, firstActiveIdx, List.map_map] at ih ⊢
      rw [if_neg (by simpa using h), List.find?_cons_of_neg _ (by simpa using h)]
      cases hf : firstActiveIdx (List.map (fun file_name =>
          { file_name := file_name, interface := identifierOf file_name,
            active := A.contains (identifierOf file_name) : ConfigItem }) rest) with
      | none => rw [hf] at ih; simpa using ih
      | some i =>
        rw [hf] at ih
        simp only [Option.map_some'] at ih ⊢
        simpa using ih

theorem getD_indexOfStr {p : String} : ∀ {rows : List String}, p ∈ rows →
    rows.getD (indexOfStr p rows) "" = p := by
  intro rows
  induction rows with
  | nil => intro h; cases h
  | cons y rest ih =>
    intro h
    by_cases hy : y = p
    · simp [indexOfStr, hy]
    · have hmem : p ∈ rest := by
        rcases List.mem_cons.mp h with h' | h'
        · exact absurd h'.symm hy
        · exact h'
      simp only [indexOfStr, if_neg hy, List.getD_cons_succ]
      exact ih hmem

theorem selected_eq_selFromIds (names A : List String) (previous : Option String) :
    (target_row (build_config_items names A) previous).map
      (fun i => ((build_config_items names A).map ConfigItem.interface).getD i "") =
    selFromIds (names.map identifierOf) A previous := by
  unfold target_row selFromIds
  rw [build_map_interface]
  have h2 := firstActive_find? names A
  cases hf : firstActiveIdx (build_config_items names A) with
  | some i =>
    rw [hf] at h2
    rw [← h2]
    simp
  | none =>
    rw [hf] at h2
    rw [← h2]
    simp only [Option.map_none']
    cases previous with
    | none =>
      cases hl : names.map identifierOf with
      | nil => simp
      | cons hd tl => simp
    | some p =>
      dsimp only
      by_cases hp : p ≠ "" ∧ p ∈ names.map identifierOf
      · rw [if_pos hp, if_pos hp]
        simp only [Option.map_some', getD_indexOfStr hp.2]
      · rw [if_neg hp, if_neg hp]
        cases hl : names.map identifierOf with
        | nil => simp
        | cons hd tl => simp

theorem reconcile_selected (D A : List String) (previous : Option String) :
    (reconcile D A previous).selectedIdentifier =
      selFromIds ((List.insertionSort strLe D.dedup).map identifierOf) A previous :=
  selected_eq_selFromIds (List.insertionSort strLe D.dedup) A previous

theorem selFromIds_mem {ids A : List String} {previous : Option String} {s : String}
    (h : selFromIds ids A previous = some s) : s ∈ ids := by
  unfold selFromIds at h
  split at h
  · rename_i id hfind
    cases h
    exact List.mem_of_find?_eq_some hfind
  · split at h
    · split at h
      · rename_i hp
        cases h
        exact hp.2
      · exact List.mem_of_mem_head? (Option.mem_def.mpr h)
    · exact List.mem_of_mem_head? (Option.mem_def.mpr h)

theorem selFromIds_idem (ids A : List String) (previous : Option String) :
    selFromIds ids A (selFromIds ids A previous) = selFromIds ids A previous := by
  unfold selFromIds
  cases hfind : ids.find? (fun id => A.contains id) with
  | some id => rfl
  | none =>
    cases previous with
    | none =>
      cases ids with
      | nil => rfl
      | cons hd tl =>
        show (if hd ≠ "" ∧ hd ∈ hd :: tl then some hd else (hd :: tl).head?) =
          (hd :: tl).head?
        by_cases hph : hd ≠ "" ∧ hd ∈ hd :: tl
        · rw [if_pos hph]; rfl
        · exact if_neg hph
    | some p =>
      dsimp only
      by_cases hp : p ≠ "" ∧ p ∈ ids
      · rw [if_pos hp]
        exact if_pos hp
      · rw [if_neg hp]
        cases ids with
        | nil => rfl
        | cons hd tl =>
          show (if hd ≠ "" ∧ hd ∈ hd :: tl then some hd else (hd :: tl).head?) =
            (hd :: tl).head?
          by_cases hph : hd ≠ "" ∧ hd ∈ hd :: tl
          · rw [if_pos hph]; rfl
          · exact if_neg hph

theorem view_eq_of (v w : ReconciledView) (h1 : v.entries = w.entries)
    (h2 : v.selectedIdentifier = w.selectedIdentifier) : v = w := by
  cases v; cases w; cases h1; cases h2; rfl

/-! Claim theorems. -/

/-- C1, counterexample: the claim's selection rule (b) fails on the code at
`D = ["!.conf", ".conf"]`, `A = []`, `previousSelection = some ""` — the
identifier `""` (from file `".conf"`) is a member of the current
identifiers, so the claim selects it, but `refresh_table`'s truthiness
guard `previous and previous in self.row_interfaces` treats the empty
string as absent and falls through to the first row, selecting `"!"`. -/
theorem C1_counterexample :
    (reconcile ["!.conf", ".conf"] [] (some "")).selectedIdentifier ≠
      claimSelection ["!.conf", ".conf"] [] (some "") := by decide

/-- C1, amended: provided the remembered selection is not the empty string,
the selected identifier of `reconcile` is computed by the first matching
rule of (a) first sorted-order active identifier, (b) `previousSelection`
when still a current identifier, (c) first identifier in sorted order,
(d) none — exactly `claimSelection`, the rule as the specification words
it. -/
theorem C1_selection_priority (D A : List String) (previous : Option String)
    (hprev : previous ≠ some "") :
    (reconcile D A previous).selectedIdentifier = claimSelection D A previous := by
  rw [reconcile_selected]
  unfold claimSelection selFromIds
  cases hfind : ((List.insertionSort strLe D.dedup).map identifierOf).find?
      (fun id => A.contains id) with
  | some id => rfl
  | none =>
    cases previous with
    | none => rfl
    | some p =>
      dsimp only
      have hp : p ≠ "" := fun e => hprev (by rw [e])
      by_cases hmem : p ∈ (List.insertionSort strLe D.dedup).map identifierOf
      · rw [if_pos ⟨hp, hmem⟩, if_pos (List.elem_iff.mpr hmem)]
      · rw [if_neg (fun hc => hmem hc.2), if_neg (fun hc => hmem (List.elem_iff.mp hc))]

/-- C1, witness: the selection-priority theorem applied at the spec's own
scenario `D = {"wg0.conf", "office.conf"}`, `A = {"wg0"}`,
`previousSelection = "office"`. -/
theorem C1_witness :
    (reconcile ["office.conf", "wg0.conf"] ["wg0"] (some "office")).selectedIdentifier =
      claimSelection ["office.conf", "wg0.conf"] ["wg0"] (some "office") :=
  C1_selection_priority ["office.conf", "wg0.conf"] ["wg0"] (some "office") (by decide)

/-- C5: no dangling selection — whenever a reconciliation pass selects an
identifier, some entry of that same pass carries it as its interface. -/
theorem C5_no_dangling (D A : List String) (previous : Option String) (s : String)
    (hs : (reconcile D A previous).selectedIdentifier = some s) :
    ∃ e ∈ (reconcile D A previous).entries, e.interface = s := by
  rw [reconcile_selected] at hs
  have hmem := selFromIds_mem hs
  rw [List.mem_map] at hmem
  obtain ⟨n, hn, hid⟩ := hmem
  exact ⟨{ file_name := n, interface := identifierOf n,
           active := A.contains (identifierOf n) }, List.mem_map_of_mem _ hn, hid⟩

/-- C5, witness: the no-dangling-selection theorem at `D = {"wg0.conf"}`,
`A = {}`, no previous selection. -/
theorem C5_witness :
    ∃ e ∈ (reconcile ["wg0.conf"] [] none).entries, e.interface = "wg0" :=
  C5_no_dangling ["wg0.conf"] [] none "wg0" (by decide)

/-- C6: idempotence — reconciling again with the same inputs, feeding back
the selection the first pass produced, returns the identical view. -/
theorem C6_idempotent (D A : List String) (previous : Option String) :
    reconcile D A ((reconcile D A previous).selectedIdentifier) = reconcile D A previous := by
  refine view_eq_of _ _ rfl ?_
  rw [reconcile_selected, reconcile_selected]
  exact selFromIds_idem _ _ _

/-- C2: a reconciliation pass over a duplicate-free discovered set `D`
produces exactly `|D|` entries, and the entries are sorted by display name
ascending in the case-sensitive ordinal (code-point) order `strLe`. -/
theorem C2_entry_count_sorted (D A : List String) (previous : Option String)
    (hD : D.Nodup) :
    (reconcile D A previous).entries.length = D.length ∧
    List.Sorted strLe ((reconcile D A previous).entries.map ConfigItem.file_name) := by
  constructor
  · show (reconciledItems D A).length = D.length
    unfold reconciledItems build_config_items
    rw [List.length_map, List.length_insertionSort, List.dedup_eq_self.mpr hD]
  · show List.Sorted strLe ((reconciledItems D A).map ConfigItem.file_name)
    unfold reconciledItems
    rw [build_map_file_name]
    exact List.sorted_insertionSort strLe _

/-- C2, witness: the count-and-sortedness theorem at
`D = {"wg0.conf", "office.conf"}`, `A = {}`. -/
theorem C2_witness :
    (reconcile ["wg0.conf", "office.conf"] [] none).entries.length =
      (["wg0.conf", "office.conf"] : List String).length ∧
    List.Sorted strLe ((reconcile ["wg0.conf", "office.conf"] [] none).entries.map
      ConfigItem.file_name) :=
  C2_entry_count_sorted ["wg0.conf", "office.conf"] [] none (by decide)

/-- C3: an entry of a reconciliation pass is marked active exactly when its
identifier is a member of the active-identifier set supplied to that same
pass. -/
theorem C3_isActive_iff (D A : List String) (previous : Option String) :
    ∀ e ∈ (reconcile D A previous).entries, e.active = true ↔ e.interface ∈ A := by
  intro e he
  have hm : e ∈ build_config_items (List.insertionSort strLe D.dedup) A := he
  unfold build_config_items at hm
  rw [List.mem_map] at hm
  obtain ⟨n, hn, rfl⟩ := hm
  show (A.contains (identifierOf n)) = true ↔ identifierOf n ∈ A
  exact List.elem_iff

/-- C3, witness: the active-flag theorem at `D = {"wg0.conf"}`,
`A = {"wg0"}`, applied to the single resulting entry. -/
theorem C3_witness :
    ({ file_name := "wg0.conf", interface := "wg0", active := true } : ConfigItem).active = true ↔
      ("wg0" : String) ∈ ["wg0"] :=
  C3_isActive_iff ["wg0.conf"] ["wg0"] none
    { file_name := "wg0.conf", interface := "wg0", active := true } (by decide)

theorem endsWithConf_append (s : String) : endsWithConf (s ++ ".conf") = true := by
  unfold endsWithConf
  rw [decide_eq_true_eq, String.data_append,
    show (".conf" : String).data = ['.', 'c', 'o', 'n', 'f'] from rfl, List.reverse_append,
    show (['.', 'c', 'o', 'n', 'f'] : List Char).reverse = confSuffixRev from rfl]
  exact List.take_left' rfl

theorem identifierOf_append_conf (s : String) : identifierOf (s ++ ".conf") = s := by
  unfold identifierOf
  simp only [endsWithConf_append, if_true]
  rw [String.data_append, show (".conf" : String).data = ['.', 'c', 'o', 'n', 'f'] from rfl,
    List.length_append, show (['.', 'c', 'o', 'n', 'f'] : List Char).length = 5 from rfl,
    Nat.add_sub_cancel, List.take_left]

/-- C4: identifier derivation — stripping a name that ends in `.conf`
removes exactly that one trailing suffix (`identifierOf (s ++ ".conf") = s`
for every `s`, including when `s` itself ends in `.conf`), a name without
the suffix is unchanged, and the spec's three examples hold. -/
theorem C4_identifier_derivation :
    (∀ s : String, identifierOf (s ++ ".conf") = s) ∧
    (∀ s : String, endsWithConf s = false → identifierOf s = s) ∧
    identifierOf "wg0.conf" = "wg0" ∧
    identifierOf "wg0" = "wg0" ∧
    identifierOf "a.b.conf" = "a.b" := by
  refine ⟨identifierOf_append_conf, ?_, by decide, by decide, by decide⟩
  intro s hs
  unfold identifierOf
  simp [hs]

/-- C4, witness: exactly one suffix is stripped from `"a.conf.conf"`, and
`"wg0"` (no suffix) is unchanged. -/
theorem C4_witness :
    identifierOf ("a.conf" ++ ".conf") = "a.conf" ∧ identifierOf "wg0" = "wg0" :=
  ⟨C4_identifier_derivation.1 "a.conf", C4_identifier_derivation.2.1 "wg0" (by decide)⟩

theorem strContains_self (s : String) : strContains s s := ⟨[], [], by simp⟩

theorem strContains_concat (a b c : String) : strContains (a ++ b ++ c) b := by
  unfold strContains
  refine ⟨a.data, c.data, ?_⟩
  rw [String.data_append, String.data_append]

theorem strContains_left (s t sub : String) (h : strContains s sub) :
    strContains (s ++ t) sub := by
  unfold strContains at h ⊢
  obtain ⟨u, v, huv⟩ := h
  exact ⟨u, v ++ t.data, by rw [String.data_append, ← huv]; simp [List.append_assoc]⟩

theorem strContains_right (t s sub : String) (h : strContains s sub) :
    strContains (t ++ s) sub := by
  unfold strContains at h ⊢
  obtain ⟨u, v, huv⟩ := h
  exact ⟨t.data ++ u, v, by rw [String.data_append, ← huv]; simp [List.append_assoc]⟩

/-- C7: `run_wg_quick` result contract — on exit code 0 the result is
`(true, message)` with the message naming the interface and the action; on a
non-zero exit code the result is `(false, message)` whose message contains
the stripped error stream when non-empty, else the stripped output stream
when non-empty, else the `Unknown error` sentinel.  The embedding is a
total function, reflecting that the Python function returns on every path
and never raises. -/
theorem C7_set_interface_state (action interface : String) (r : ProcResult) :
    (r.returncode = 0 →
      (run_wg_quick action interface r).1 = true ∧
      strContains (run_wg_quick action interface r).2 interface ∧
      strContains (run_wg_quick action interface r).2 action) ∧
    (r.returncode ≠ 0 →
      (run_wg_quick action interface r).1 = false ∧
      (pyStrip r.stderr ≠ "" →
        strContains (run_wg_quick action interface r).2 (pyStrip r.stderr)) ∧
      (pyStrip r.stderr = "" → pyStrip r.stdout ≠ "" →
        strContains (run_wg_quick action interface r).2 (pyStrip r.stdout)) ∧
      (pyStrip r.stderr = "" → pyStrip r.stdout = "" →
        strContains (run_wg_quick action interface r).2 "Unknown error")) := by
  constructor
  · intro h0
    unfold run_wg_quick
    rw [if_pos h0]
    refine ⟨rfl, ?_, ?_⟩
    · have h1 : strContains ("Interface \x27" ++ interface) interface :=
        strContains_right "Interface \x27" interface interface (strContains_self interface)
      exact strContains_left _ " succeeded." _
        (strContains_left _ action _ (strContains_left _ "\x27 " _ h1))
    · exact strContains_concat _ _ _
  · intro h0
    unfold run_wg_quick
    rw [if_neg h0]
    refine ⟨rfl, ?_, ?_, ?_⟩
    · intro hs
      unfold pyOr
      rw [if_pos hs]
      exact strContains_right _ _ _ (strContains_self _)
    · intro hs ho
      unfold pyOr
      rw [hs, if_neg (by simp), if_pos ho]
      exact strContains_right _ _ _ (strContains_self _)
    · intro hs ho
      unfold pyOr
      rw [hs, ho, if_neg (by simp), if_neg (by simp)]
      exact strContains_right _ _ _ (strContains_self _)

/-- C7, witness: the contract theorem applied to a successful run, a failure
with stderr text (the spec's `Cannot find device` scenario), and a failure
with both streams empty. -/
theorem C7_witness :
    ((run_wg_quick "up" "wg0" ⟨0, "", ""⟩).1 = true ∧
      strContains (run_wg_quick "up" "wg0" ⟨0, "", ""⟩).2 "wg0" ∧
      strContains (run_wg_quick "up" "wg0" ⟨0, "", ""⟩).2 "up") ∧
    (run_wg_quick "up" "wg0" ⟨1, "", " Cannot find device\n"⟩).1 = false ∧
    strContains (run_wg_quick "up" "wg0" ⟨1, "", " Cannot find device\n"⟩).2
      (pyStrip " Cannot find device\n") ∧
    strContains (run_wg_quick "down" "wg0" ⟨1, "", ""⟩).2 "Unknown error" :=
  ⟨(C7_set_interface_state "up" "wg0" ⟨0, "", ""⟩).1 (by decide),
   ((C7_set_interface_state "up" "wg0" ⟨1, "", " Cannot find device\n"⟩).2 (by decide)).1,
   ((C7_set_interface_state "up" "wg0" ⟨1, "", " Cannot find device\n"⟩).2 (by decide)).2.1
     (by decide),
   ((C7_set_interface_state "down" "wg0" ⟨1, "", ""⟩).2 (by decide)).2.2.2 (by decide) (by decide)⟩

/-- C8, counterexample: the claim says the list-active-interfaces query is
prefixed with the elevation wrapper when the process is unprivileged, but
`get_active_interfaces` builds its command without `_with_privileges` —
at effective uid 1000 the command the code runs differs from the wrapped
command the claim requires. -/
theorem C8_counterexample :
    get_active_interfaces_cmd ≠ with_privileges 1000 ["wg", "show", "interfaces"] := by
  decide

/-- C8, amended: privilege elevation applies to the two state-changing
operations and to the configuration-listing query — each runs directly at
effective uid 0 and with the `sudo -n` non-interactive wrapper otherwise —
while the list-active-interfaces query is always invoked directly, without
the wrapper. -/
theorem C8_privilege_elevation (euid : Nat) (action interface : String) :
    run_wg_quick_cmd euid action interface =
      (if euid = 0 then ["wg-quick", action, interface]
       else ["sudo", "-n", "wg-quick", action, interface]) ∧
    list_wireguard_configs_cmd euid =
      (if euid = 0 then ["ls", "/etc/wireguard"]
       else ["sudo", "-n", "ls", "/etc/wireguard"]) ∧
    get_active_interfaces_cmd = ["wg", "show", "interfaces"] := by
  unfold run_wg_quick_cmd list_wireguard_configs_cmd get_active_interfaces_cmd
    with_privileges WIREGUARD_DIR
  by_cases h : euid = 0
  · rw [if_pos h, if_pos h]
    exact ⟨rfl, rfl, rfl⟩
  · rw [if_neg h, if_neg h]
    exact ⟨rfl, rfl, rfl⟩

/-- C9: empty-on-failure — `get_active_interfaces` and
`list_wireguard_configs` both return the empty set whenever the underlying
command exits non-zero, and the listing also returns the empty set whenever
no stripped stdout line survives the non-empty-and-`.conf` filter (in
particular when no configurations exist). -/
theorem C9_empty_on_failure (r : ProcResult) :
    (r.returncode ≠ 0 → get_active_interfaces r = []) ∧
    (r.returncode ≠ 0 → list_wireguard_configs r = []) ∧
    (((pySplitLines r.stdout).map pyStrip).filter
        (fun line => line ≠ "" && endsWithConf line) = [] →
      list_wireguard_configs r = []) := by
  refine ⟨?_, ?_, ?_⟩
  · intro h
    unfold get_active_interfaces
    rw [if_pos h]
  · intro h
    unfold list_wireguard_configs
    rw [if_pos h]
  · intro h
    unfold list_wireguard_configs
    by_cases h0 : r.returncode ≠ 0
    · rw [if_pos h0]
    · rw [if_neg h0, h]
      rfl

/-- C9, witness: the empty-on-failure theorem at a failed invocation (exit
code 2) and at a successful listing whose stdout holds no `.conf` name. -/
theorem C9_witness :
    get_active_interfaces ⟨2, "boom", "fail"⟩ = [] ∧
    list_wireguard_configs ⟨2, "boom", "fail"⟩ = [] ∧
    list_wireguard_configs ⟨0, "notes.txt\n", ""⟩ = [] :=
  ⟨(C9_empty_on_failure ⟨2, "boom", "fail"⟩).1 (by decide),
   (C9_empty_on_failure ⟨2, "boom", "fail"⟩).2.1 (by decide),
   (C9_empty_on_failure ⟨0, "notes.txt\n", ""⟩).2.2 (by decide)⟩

theorem length_ge_of_endsWithConf {s : String} (h : endsWithConf s = true) :
    5 ≤ s.data.length := by
  unfold endsWithConf at h
  rw [decide_eq_true_eq] at h
  have hlen := congrArg List.length h
  rw [List.length_take, List.length_reverse] at hlen
  rw [show confSuffixRev.length = 5 from rfl] at hlen
  rcases Nat.le_total 5 s.data.length with h5 | h5
  · exact h5
  · rw [Nat.min_eq_right h5] at hlen
    omega

theorem identifierOf_length_lt {s : String} (h : endsWithConf s = true) :
    (identifierOf s).length < s.length := by
  have h5 := length_ge_of_endsWithConf h
  unfold identifierOf
  rw [if_pos h]
  show (String.mk (s.data.take (s.data.length - 5))).length < s.length
  simp only [String.length]
  rw [List.length_take, Nat.min_eq_left (Nat.sub_le _ _)]
  omega

/-- C10: configuration discovery surfaces only names ending in `.conf`, with
the result deduplicated (`Nodup`) and sorted ascending; consequently every
built entry's display name ends in `.conf` and its identifier is strictly
shorter than its display name. -/
theorem C10_conf_filter (r : ProcResult) (A : List String) :
    (∀ n ∈ list_wireguard_configs r, endsWithConf n = true) ∧
    (list_wireguard_configs r).Nodup ∧
    List.Sorted strLe (list_wireguard_configs r) ∧
    (∀ e ∈ build_config_items (list_wireguard_configs r) A,
      endsWithConf e.file_name = true ∧ e.interface.length < e.file_name.length) := by
  have hmem : ∀ n ∈ list_wireguard_configs r, endsWithConf n = true := by
    intro n hn
    unfold list_wireguard_configs at hn
    by_cases h0 : r.returncode ≠ 0
    · rw [if_pos h0] at hn
      cases hn
    · rw [if_neg h0] at hn
      rw [List.mem_insertionSort, List.mem_dedup, List.mem_filter] at hn
      have h2 := hn.2
      rw [Bool.and_eq_true] at h2
      exact h2.2
  refine ⟨hmem, ?_, ?_, ?_⟩
  · unfold list_wireguard_configs
    split
    · exact List.nodup_nil
    · exact ((List.perm_insertionSort strLe _).symm).nodup (List.nodup_dedup _)
  · unfold list_wireguard_configs
    split
    · exact List.sorted_nil
    · exact List.sorted_insertionSort strLe _
  · intro e he
    unfold build_config_items at he
    rw [List.mem_map] at he
    obtain ⟨n, hn, rfl⟩ := he
    have hc := hmem n hn
    exact ⟨hc, identifierOf_length_lt hc⟩

/-- C10, witness: the discovery-filter theorem at a listing whose stdout
holds `wg0.conf` and a non-`.conf` name, applied to the surviving name and
its built entry. -/
theorem C10_witness :
    endsWithConf "wg0.conf" = true ∧
    (endsWithConf ("wg0.conf" : String) = true ∧
      ("wg0" : String).length < ("wg0.conf" : String).length) :=
  ⟨(C10_conf_filter ⟨0, "wg0.conf\nreadme\n", ""⟩ []).1 "wg0.conf" (by decide),
   (C10_conf_filter ⟨0, "wg0.conf\nreadme\n", ""⟩ []).2.2.2
     { file_name := "wg0.conf", interface := "wg0", active := false } (by decide)⟩
